import Mathlib

/-!
Shallow embedding of `latentscope/scripts/label_clusters.py` (the cluster
labeling pipeline): the duplicate filter, the cluster digest extraction with
token-budget truncation, the label cleaning transform, run-id resolution, and
the sequential labeling engine with its per-cluster checkpointing and
fail-fast error handling.  Machine strings are `String`/`List Char`, pandas
tables are `List Entry`, the model is an explicit record of functions, and
the `exit(1)` / uncaught-exception control flow is an explicit outcome type.
-/

/-- The single-quote character, written via its code point so the
development never spells a bare quote. -/
def squote : Char := Char.ofNat 39

/-- The double-quote character `"`. -/
def dquote : Char := Char.ofNat 34

/-- The single-quote character as a one-character string. -/
def squoteStr : String := String.mk [squote]

/-- Python `str.isspace`-style whitespace as used by `str.split()`:
space, tab, newline, carriage return, vertical tab, form feed. -/
def isPySpace (c : Char) : Bool :=
  c == ' ' || c == '\t' || c == '\n' || c == '\r' || c == '\x0b' || c == '\x0c'

/-- Accumulator worker for `pywords`: `acc` holds the (reversed) current word. -/
def pywordsAux : List Char → List Char → List (List Char)
  | acc, [] => if acc.isEmpty then [] else [acc.reverse]
  | acc, c :: cs =>
    if isPySpace c then
      if acc.isEmpty then pywordsAux [] cs else acc.reverse :: pywordsAux [] cs
    else pywordsAux (c :: acc) cs

/-- Python `str.split()` with no argument: maximal runs of non-whitespace
characters, with no empty words. -/
def pywords (l : List Char) : List (List Char) :=
  pywordsAux [] l

/-- Python `str.split()` on a `String`. -/
def pySplit (s : String) : List String :=
  (pywords s.toList).map String.mk

/-- Python `str.split(" ")`: split at every single space, keeping empty
fields (so the result is never empty). -/
def splitOnSpace (l : List Char) : List (List Char) :=
  l.splitOn ' '

/-- Worker for `dedupFirst`; `seen` holds the values already emitted. -/
def dedupFirstAux (seen : List String) : List String → List String
  | [] => []
  | x :: xs =>
    if x ∈ seen then dedupFirstAux seen xs
    else x :: dedupFirstAux (x :: seen) xs

/-- pandas `Series.drop_duplicates()`: keep the first occurrence of each
value, in first-seen order. -/
def dedupFirst (l : List String) : List String :=
  dedupFirstAux [] l

/-- Model of `too_many_duplicates(line, threshold=10)` from the source: `None` or the
empty string is never flagged; otherwise split on whitespace, count
occurrences per distinct word (the dict iterates distinct words in first-seen
order), and flag the line iff some count exceeds the threshold. -/
def too_many_duplicates (line : Option String) (threshold : Nat := 10) : Bool :=
  match line with
  | none => false
  | some s =>
    if s == "" then false
    else
      let words := pySplit s
      (dedupFirst words).any fun w => words.count w > threshold

/-- The label cleaning transform of the source, lines 138–143, on character
lists: replace newlines by spaces, drop double quotes, drop single quotes,
collapse whitespace via `" ".join(s.split())`, then keep the first five
space-delimited fields via `" ".join(s.split(" ")[0:5])`. -/
def cleanChars (l : List Char) : List Char :=
  let a := l.map fun c => if c == '\n' then ' ' else c
  let b := a.filter fun c => c != dquote
  let d := b.filter fun c => c != squote
  let collapsed := List.intercalate [' '] (pywords d)
  List.intercalate [' '] ((splitOnSpace collapsed).take 5)

/-- The label cleaning transform on `String`. -/
def cleanLabel (s : String) : String :=
  String.mk (cleanChars s.toList)

/-- Python `lst[:k]` for an `Int` bound `k`: a nonnegative bound takes a
prefix; a negative bound drops `-k` elements from the end. -/
def pySliceTo (l : List Nat) (k : Int) : List Nat :=
  if 0 ≤ k then l.take k.toNat else l.take (l.length - (-k).toNat)

/-- The token truncation of the source, lines 110–112: encode, and if the
token count exceeds `max_tokens`, slice the token list with `[:max_tokens]`. -/
def truncateTokens (encoded : List Nat) (maxTokens : Int) : List Nat :=
  if (encoded.length : Int) > maxTokens then pySliceTo encoded maxTokens
  else encoded

/-- The numbered-list rendering inside the extraction loop (source line 109):
`'\n'.join([f"{i+1}. {t}" for i, t in enumerate(items) if not
too_many_duplicates(t)])` — note the index comes from `enumerate` over the
deduplicated items, before the filter drops flagged items. -/
def renderDigest (items : List String) : String :=
  String.intercalate "\n"
    (((dedupFirst items).enum.filter fun p => !(too_many_duplicates (some p.2))).map
      fun p => toString (p.1 + 1) ++ ". " ++ p.2)

/-- The digest rendering as the spec describes it: drop flagged items first,
then number the survivors consecutively starting from 1. -/
def renderDigestSpec (items : List String) : String :=
  String.intercalate "\n"
    ((((dedupFirst items).filter fun t => !(too_many_duplicates (some t))).enum).map
      fun p => toString (p.1 + 1) ++ ". " ++ p.2)

/-- One cluster's extraction (source lines 105–113): dedup, filter, render as
a numbered list, encode, truncate to the token budget, decode. -/
def extractCluster (encode : String → List Nat) (decode : List Nat → String)
    (maxTokens : Int) (items : List String) : String :=
  decode (truncateTokens (encode (renderDigest items)) maxTokens)

/-- The system prompt content (source lines 90–93), an f-string with the
run's `context` interpolated on its own line. -/
def systemPromptContent (context : String) : String :=
  "You" ++ squoteStr ++ "re job is to summarize lists of items with a short label of no more than 4 words. The items are part of a cluster and the label will be used to distinguish this cluster from others, so pay attention to what makes this group of similar items distinct.\n"
    ++ context
    ++ "\nThe user will submit a bulleted list of items and you should choose a label that best summarizes the theme of the list so that someone browsing the labels will have a good idea of what is in the list. \nDo not use punctuation, Do not explain yourself, respond with only a few words that summarize the list."

/-- The run's max-token budget (source line 96):
`model.params["max_tokens"] - len(enc.encode(system_prompt["content"])) - 10`. -/
def computeMaxTokens (modelMaxTokens : Int) (encode : String → List Nat)
    (context : String) : Int :=
  modelMaxTokens - ((encode (systemPromptContent context)).length : Int) - 10

/-- One `{role, content}` chat message. -/
structure ChatMessage where
  role : String
  content : String
deriving Repr, DecidableEq

/-- The system message sent on every chat call. -/
def systemPromptMsg (context : String) : ChatMessage :=
  ⟨"system", systemPromptContent context⟩

/-- The user message for one cluster (source line 132). -/
def userMsg (extract : String) : ChatMessage :=
  ⟨"user", "Here is a list of items, please summarize the list into a label using only a few words:\n" ++ extract⟩

/-- One row of the run table: the cluster's member record indices plus the
label fields.  `none` models a missing/NaN cell. -/
structure Entry where
  indices : List Nat
  label : Option String
  label_raw : Option String
  labeled : Bool
deriving Repr, DecidableEq

instance : Inhabited Entry := ⟨⟨[], none, none, false⟩⟩

/-- The writes of source lines 147–149 into row `i`: set `label` to the
cleaned label, `label_raw` to the verbatim output, `labeled` to true; other
columns keep their values. -/
def labelEntry (raw : String) (old : Entry) : Entry :=
  { old with label := some (cleanLabel raw), label_raw := some raw, labeled := true }

/-- The mutable state of the labeling engine: the in-memory table, the
current content of the on-disk checkpoint, the ordered log of checkpoint
writes (paired with the cluster index that triggered each), and the ordered
list of cluster indices for which `model.chat` was invoked. -/
structure EngineState where
  table : List Entry
  persisted : List Entry
  persistLog : List (Nat × List Entry)
  calls : List Nat
deriving Repr, DecidableEq

/-- How the labeling loop ends: normal completion (metadata is then
written and the process exits 0), `exit(1)` from the per-cluster exception
handler, or the uncaught `TypeError` raised by `unlabeled_row > 0` when
`unlabeled_row` is Python `None`. -/
inductive RunOutcome where
  | completed (s : EngineState)
  | exited (s : EngineState)
  | typeErrorCrash (s : EngineState)
deriving Repr, DecidableEq

/-- The labeling loop (source lines 121–161) over the remaining cluster
indices.  Per index: when `unlabeled_row > 0` and the row's `labeled` flag is
set, skip without a model call; when `unlabeled_row` is `None`, the
comparison itself raises `TypeError` (uncaught — the run crashes); otherwise
invoke `model.chat`, and on success write the cleaned and raw labels and the
flag into the row and checkpoint the whole table, while any exception
triggers `exit(1)` with the table and checkpoint untouched. -/
def runLoop (chat : List ChatMessage → Except String String) (context : String)
    (extracts : List String) (unlabeledRow : Option Nat) :
    List Nat → EngineState → RunOutcome
  | [], s => .completed s
  | i :: rest, s =>
    match unlabeledRow with
    | none => .typeErrorCrash s
    | some r =>
      if decide (0 < r) && (s.table.getD i default).labeled then
        runLoop chat context extracts unlabeledRow rest s
      else
        match chat [systemPromptMsg context, userMsg (extracts.getD i "")] with
        | .error _ => .exited { s with calls := s.calls ++ [i] }
        | .ok raw =>
          runLoop chat context extracts unlabeledRow rest
            { table := s.table.set i (labelEntry raw (s.table.getD i default)),
              persisted := s.table.set i (labelEntry raw (s.table.getD i default)),
              persistLog := s.persistLog ++
                [(i, s.table.set i (labelEntry raw (s.table.getD i default)))],
              calls := s.calls ++ [i] }

/-- Model of the source line 70 computation (select the rows whose `labeled`
flag is not set, then take `first_valid_index()`):
the positional index of the first row whose `labeled` flag is not true, or
Python `None` when every row is labeled. -/
def firstUnlabeledRow (table : List Entry) : Option Nat :=
  table.findIdx? fun e => !e.labeled

/-- The model collaborator's contract: the `max_tokens` capacity parameter,
the encoder pair, and the synchronous chat call (which may raise). -/
structure ModelApi where
  maxTokensParam : Int
  encode : String → List Nat
  decode : List Nat → String
  chat : List ChatMessage → Except String String

/-- The per-cluster extracts list (source lines 104–113): for each row of
the run table, fetch the text of its member records and extract the digest. -/
def extractsOf (m : ModelApi) (context : String) (records : List String)
    (table : List Entry) : List String :=
  table.map fun row =>
    extractCluster m.encode m.decode
      (computeMaxTokens m.maxTokensParam m.encode context)
      (row.indices.map fun ix => records.getD ix "")

/-- The messages sent to the model for cluster `i`. -/
def msgsFor (m : ModelApi) (context : String) (records : List String)
    (table : List Entry) (i : Nat) : List ChatMessage :=
  [systemPromptMsg context, userMsg ((extractsOf m context records table).getD i "")]

/-- The labeling engine run over a resolved table and `unlabeled_row` value:
build the extracts, then run the loop over all cluster indices starting from
an in-memory state equal to the loaded table (which is also the current
on-disk content in a rerun). -/
def labelerCore (m : ModelApi) (context : String) (records : List String)
    (table : List Entry) (unlabeledRow : Option Nat) : RunOutcome :=
  let extracts := extractsOf m context records table
  runLoop m.chat context extracts unlabeledRow (List.range extracts.length)
    ⟨table, table, [], []⟩

/-- A fresh run (source lines 60–62, 64): the default clusters table with
`labeled` initialized to false everywhere, and `unlabeled_row = 0`. -/
def labelerFresh (m : ModelApi) (context : String) (records : List String)
    (defaultClusters : List Entry) : RunOutcome :=
  labelerCore m context records
    (defaultClusters.map fun row => { row with labeled := false }) (some 0)

/-- A rerun (source lines 65–71): the loaded run table, with `unlabeled_row`
set to the first row whose `labeled` flag is not true (Python `None` when
there is none). -/
def labelerRerun (m : ModelApi) (context : String) (records : List String)
    (loaded : List Entry) : RunOutcome :=
  labelerCore m context records loaded (firstUnlabeledRow loaded)

/-- How the run id is resolved (source lines 64–83). -/
inductive RunIdResolution where
  | rerunLoad (labelId : String) (file : String)
  | fresh (labelId : String)
deriving Repr, DecidableEq

/-- Python `f"{n:03d}"`. -/
def pad3 (n : Nat) : String :=
  if n < 10 then "00" ++ toString n
  else if n < 100 then "0" ++ toString n
  else toString n

/-- Run-id resolution: `if rerun is not None`, use it verbatim as the label
id and load `f"{label_id}.parquet"`; otherwise scan the existing label
numbers for this cluster set and assign `max + 1` (or `1`), zero-padded to
three digits. -/
def resolveRunId (clusterId : String) (existingNumbers : List Nat)
    (rerun : Option String) : RunIdResolution :=
  match rerun with
  | some labelId => .rerunLoad labelId (labelId ++ ".parquet")
  | none =>
    let next := match existingNumbers.max? with
      | some mx => mx + 1
      | none => 1
    .fresh (clusterId ++ "-labels-" ++ pad3 next)

/-- The Python API default of the `rerun` parameter of `labeler` (source line
51): the empty string, not `None`. -/
def labelerDefaultRerun : Option String := some ""

/-- The calls trace of an outcome's final state. -/
def RunOutcome.callsOf : RunOutcome → List Nat
  | .completed s => s.calls
  | .exited s => s.calls
  | .typeErrorCrash s => s.calls

/-- The in-memory table of an outcome's final state. -/
def RunOutcome.tableOf : RunOutcome → List Entry
  | .completed s => s.table
  | .exited s => s.table
  | .typeErrorCrash s => s.table

/-! ### Lemmas about the Python string primitives -/

lemma intercalate_cons_cons (sep w v : List Char) (ws : List (List Char)) :
    List.intercalate sep (w :: v :: ws) = w ++ sep ++ List.intercalate sep (v :: ws) := by
  simp [List.intercalate, List.intersperse_cons_cons]

lemma intercalate_singleton (sep w : List Char) :
    List.intercalate sep [w] = w := by
  simp [List.intercalate]

/-- Every word produced by `pywordsAux` is nonempty, free of whitespace
characters, and drawn from the input or the accumulator. -/
lemma pywordsAux_mem :
    ∀ (l acc : List Char), (∀ c ∈ acc, isPySpace c = false) →
    ∀ w ∈ pywordsAux acc l, w ≠ [] ∧ ∀ c ∈ w, isPySpace c = false ∧ (c ∈ l ∨ c ∈ acc) := by
  intro l
  induction l with
  | nil =>
    intro acc hacc w hw
    cases acc with
    | nil => simp [pywordsAux] at hw
    | cons a as =>
      simp only [pywordsAux, List.isEmpty_cons, Bool.false_eq_true, if_false,
        List.mem_singleton] at hw
      subst hw
      constructor
      · simp
      · intro c hc
        rw [List.mem_reverse] at hc
        exact ⟨hacc c hc, Or.inr hc⟩
  | cons x xs ih =>
    intro acc hacc w hw
    by_cases hx : isPySpace x = true
    · rw [pywordsAux, if_pos hx] at hw
      have htail : ∀ w ∈ pywordsAux [] xs,
          w ≠ [] ∧ ∀ c ∈ w, isPySpace c = false ∧ (c ∈ x :: xs ∨ c ∈ acc) := by
        intro v hv
        obtain ⟨hne, hprop⟩ := ih [] (by simp) v hv
        refine ⟨hne, fun c hc => ⟨(hprop c hc).1, ?_⟩⟩
        rcases (hprop c hc).2 with h | h
        · exact Or.inl (List.mem_cons_of_mem _ h)
        · simp at h
      cases acc with
      | nil =>
        simp only [List.isEmpty_nil, if_true] at hw
        exact htail w hw
      | cons a as =>
        simp only [List.isEmpty_cons, Bool.false_eq_true, if_false, List.mem_cons] at hw
        rcases hw with rfl | hw
        · constructor
          · simp
          · intro c hc
            rw [List.mem_reverse] at hc
            exact ⟨hacc c hc, Or.inr hc⟩
        · exact htail w hw
    · rw [pywordsAux, if_neg hx] at hw
      have haccx : ∀ c ∈ x :: acc, isPySpace c = false := by
        intro c hc
        rcases List.mem_cons.mp hc with rfl | hc
        · simpa using hx
        · exact hacc c hc
      obtain ⟨hne, hprop⟩ := ih (x :: acc) haccx w hw
      refine ⟨hne, fun c hc => ⟨(hprop c hc).1, ?_⟩⟩
      rcases (hprop c hc).2 with h | h
      · exact Or.inl (List.mem_cons_of_mem _ h)
      · rcases List.mem_cons.mp h with rfl | h
        · exact Or.inl (List.mem_cons_self _ _)
        · exact Or.inr h

/-- Every word of `pywords l` is nonempty and each character is a
non-whitespace character of `l`. -/
lemma pywords_mem {l : List Char} :
    ∀ w ∈ pywords l, w ≠ [] ∧ ∀ c ∈ w, isPySpace c = false ∧ c ∈ l := by
  intro w hw
  obtain ⟨hne, hprop⟩ := pywordsAux_mem l [] (by simp) w hw
  refine ⟨hne, fun c hc => ⟨(hprop c hc).1, ?_⟩⟩
  rcases (hprop c hc).2 with h | h
  · exact h
  · simp at h

lemma intercalate_nil (sep : List Char) : List.intercalate sep [] = [] := by
  simp [List.intercalate]

/-- Feeding a whitespace-free word into the accumulator. -/
lemma pywordsAux_append_nonspace :
    ∀ (w : List Char), (∀ c ∈ w, isPySpace c = false) →
    ∀ (acc rest : List Char), pywordsAux acc (w ++ rest) = pywordsAux (w.reverse ++ acc) rest := by
  intro w
  induction w with
  | nil => intro _ acc rest; simp
  | cons x xs ih =>
    intro hw acc rest
    have hx : isPySpace x = false := hw x (List.mem_cons_self _ _)
    rw [List.cons_append, pywordsAux, if_neg (by simp [hx])]
    rw [ih (fun c hc => hw c (List.mem_cons_of_mem _ hc)) (x :: acc) rest]
    congr 1
    simp

/-- Python `str.split()` recovers the words from a single-space join of nonempty
whitespace-free words. -/
lemma pywords_intercalate :
    ∀ (ws : List (List Char)),
    (∀ w ∈ ws, w ≠ [] ∧ ∀ c ∈ w, isPySpace c = false) →
    pywords (List.intercalate [' '] ws) = ws := by
  intro ws
  induction ws with
  | nil => intro _; rw [intercalate_nil]; rfl
  | cons w vs ih =>
    intro h
    obtain ⟨hwne, hwns⟩ := h w (List.mem_cons_self _ _)
    cases vs with
    | nil =>
      rw [intercalate_singleton]
      unfold pywords
      have := pywordsAux_append_nonspace w hwns [] []
      rw [List.append_nil] at this
      rw [this]
      rw [List.append_nil]
      have : w.reverse.isEmpty = false := by
        cases hrev : w.reverse with
        | nil => exact absurd (by simpa using congrArg List.reverse hrev) hwne
        | cons _ _ => rfl
      simp [pywordsAux, this]
    | cons v vs' =>
      rw [intercalate_cons_cons]
      have hrest : ∀ u ∈ v :: vs', u ≠ [] ∧ ∀ c ∈ u, isPySpace c = false :=
        fun u hu => h u (List.mem_cons_of_mem _ hu)
      unfold pywords
      rw [List.append_assoc, pywordsAux_append_nonspace w hwns, List.append_nil]
      have hsp : (' ' :: List.intercalate [' '] (v :: vs')) =
          (' ' :: List.intercalate [' '] (v :: vs')) := rfl
      rw [show ([' '] ++ List.intercalate [' '] (v :: vs')) =
            (' ' :: List.intercalate [' '] (v :: vs')) from rfl]
      rw [pywordsAux, if_pos (by rfl)]
      have hne : w.reverse.isEmpty = false := by
        cases hrev : w.reverse with
        | nil => exact absurd (by simpa using congrArg List.reverse hrev) hwne
        | cons _ _ => rfl
      rw [if_neg (by simp [hne])]
      rw [List.reverse_reverse]
      exact congrArg (w :: ·) (ih hrest)

/-- Characters of a single-space join come from the words or are spaces. -/
lemma mem_intercalate_space :
    ∀ (ws : List (List Char)) (c : Char), c ∈ List.intercalate [' '] ws →
      c = ' ' ∨ ∃ w ∈ ws, c ∈ w := by
  intro ws
  induction ws with
  | nil => intro c hc; rw [intercalate_nil] at hc; simp at hc
  | cons w vs ih =>
    intro c hc
    cases vs with
    | nil =>
      rw [intercalate_singleton] at hc
      exact Or.inr ⟨w, List.mem_cons_self _ _, hc⟩
    | cons v vs' =>
      rw [intercalate_cons_cons] at hc
      rcases List.mem_append.mp hc with h | h
      · rcases List.mem_append.mp h with h | h
        · exact Or.inr ⟨w, List.mem_cons_self _ _, h⟩
        · simp only [List.mem_singleton] at h
          exact Or.inl h
      · rcases ih c h with h | ⟨u, hu, hcu⟩
        · exact Or.inl h
        · exact Or.inr ⟨u, List.mem_cons_of_mem _ hu, hcu⟩

/-! ### Lemmas about `dedupFirst` -/

lemma dedupFirstAux_sublist : ∀ (l seen : List String), List.Sublist (dedupFirstAux seen l) l := by
  intro l
  induction l with
  | nil => intro seen; exact List.Sublist.refl _
  | cons x xs ih =>
    intro seen
    rw [dedupFirstAux]
    by_cases hx : x ∈ seen
    · rw [if_pos hx]
      exact (ih seen).trans (List.sublist_cons_self _ _)
    · rw [if_neg hx]
      exact (ih (x :: seen)).cons₂ x

lemma mem_dedupFirstAux :
    ∀ (l seen : List String) (x : String), x ∈ dedupFirstAux seen l ↔ x ∈ l ∧ x ∉ seen := by
  intro l
  induction l with
  | nil => intro seen x; simp [dedupFirstAux]
  | cons y ys ih =>
    intro seen x
    rw [dedupFirstAux]
    by_cases hy : y ∈ seen
    · rw [if_pos hy, ih]
      constructor
      · rintro ⟨hx, hns⟩
        exact ⟨List.mem_cons_of_mem _ hx, hns⟩
      · rintro ⟨hx, hns⟩
        rcases List.mem_cons.mp hx with rfl | hx
        · exact absurd hy hns
        · exact ⟨hx, hns⟩
    · rw [if_neg hy]
      constructor
      · intro hx
        rcases List.mem_cons.mp hx with rfl | hx
        · exact ⟨List.mem_cons_self _ _, hy⟩
        · rw [ih] at hx
          refine ⟨List.mem_cons_of_mem _ hx.1, fun hs => hx.2 (List.mem_cons_of_mem _ hs)⟩
      · rintro ⟨hx, hns⟩
        rcases List.mem_cons.mp hx with rfl | hx
        · exact List.mem_cons_self _ _
        · by_cases hxy : x = y
          · subst hxy; exact List.mem_cons_self _ _
          · refine List.mem_cons_of_mem _ ?_
            rw [ih]
            refine ⟨hx, fun hs => ?_⟩
            rcases List.mem_cons.mp hs with h | h
            · exact hxy h
            · exact hns h

lemma dedupFirstAux_nodup :
    ∀ (l seen : List String), (dedupFirstAux seen l).Nodup := by
  intro l
  induction l with
  | nil => intro seen; simp [dedupFirstAux]
  | cons x xs ih =>
    intro seen
    rw [dedupFirstAux]
    by_cases hx : x ∈ seen
    · rw [if_pos hx]; exact ih seen
    · rw [if_neg hx]
      refine List.nodup_cons.mpr ⟨fun hmem => ?_, ih (x :: seen)⟩
      rw [mem_dedupFirstAux] at hmem
      exact hmem.2 (List.mem_cons_self _ _)

/-- Membership: `dedupFirst` keeps exactly the values of the input list. -/
lemma mem_dedupFirst (l : List String) (x : String) : x ∈ dedupFirst l ↔ x ∈ l := by
  rw [dedupFirst, mem_dedupFirstAux]
  simp

/-- Deduplication: `dedupFirst` is duplicate-free. -/
lemma dedupFirst_nodup (l : List String) : (dedupFirst l).Nodup :=
  dedupFirstAux_nodup l []

/-- Order: `dedupFirst` preserves first-seen order, being a sublist of the input. -/
lemma dedupFirst_sublist (l : List String) : List.Sublist (dedupFirst l) l :=
  dedupFirstAux_sublist l []

/-! ### The cleaning transform -/

lemma cleanChars_eq (l : List Char) :
    cleanChars l =
      List.intercalate [' ']
        ((splitOnSpace (List.intercalate [' ']
          (pywords (((l.map fun c => if c == '\n' then ' ' else c).filter
            fun c => c != dquote).filter fun c => c != squote)))).take 5) := rfl

lemma cleanChars_props (l : List Char) :
    '\n' ∉ cleanChars l ∧ dquote ∉ cleanChars l ∧ squote ∉ cleanChars l ∧
      (pywords (cleanChars l)).length ≤ 5 := by
  rw [cleanChars_eq]
  set d := ((l.map fun c => if c == '\n' then ' ' else c).filter
    fun c => c != dquote).filter fun c => c != squote with hd_def
  have hd : ∀ c ∈ d, c ≠ '\n' ∧ c ≠ dquote ∧ c ≠ squote := by
    intro c hc
    rw [hd_def] at hc
    obtain ⟨hc1, hsq⟩ := List.mem_filter.mp hc
    obtain ⟨hc2, hdq⟩ := List.mem_filter.mp hc1
    obtain ⟨x, _, hx⟩ := List.mem_map.mp hc2
    refine ⟨?_, by simpa using hdq, by simpa using hsq⟩
    by_cases hxe : x = '\n'
    · rw [if_pos (by simp [hxe])] at hx
      rw [← hx]; decide
    · rw [if_neg (by simp [hxe])] at hx
      rw [← hx]; exact hxe
  have hws := pywords_mem (l := d)
  cases hcase : pywords d with
  | nil =>
    rw [intercalate_nil]
    have : splitOnSpace [] = [[]] := rfl
    rw [this]
    have : ([[]] : List (List Char)).take 5 = [[]] := rfl
    rw [this, intercalate_singleton]
    refine ⟨by simp, by simp, by simp, by simp [pywords, pywordsAux]⟩
  | cons w vs =>
    have hwsall : ∀ u ∈ w :: vs, u ≠ [] ∧ ∀ c ∈ u, isPySpace c = false ∧ c ∈ d := by
      rw [← hcase]; exact hws
    have hsplit : splitOnSpace (List.intercalate [' '] (w :: vs)) = w :: vs := by
      unfold splitOnSpace
      refine List.splitOn_intercalate _ ' ' ?_ (by simp)
      intro u hu hsp
      have := ((hwsall u hu).2 ' ' hsp).1
      simp [isPySpace] at this
    rw [hsplit]
    have htake : ∀ u ∈ (w :: vs).take 5, u ≠ [] ∧ ∀ c ∈ u, isPySpace c = false ∧ c ∈ d :=
      fun u hu => hwsall u (List.take_subset _ _ hu)
    have hmem : ∀ c ∈ List.intercalate [' '] ((w :: vs).take 5),
        c = ' ' ∨ c ∈ d := by
      intro c hc
      rcases mem_intercalate_space _ c hc with h | ⟨u, hu, hcu⟩
      · exact Or.inl h
      · exact Or.inr ((htake u hu).2 c hcu).2
    refine ⟨?_, ?_, ?_, ?_⟩
    · intro hcon
      rcases hmem _ hcon with h | h
      · exact absurd h (by decide)
      · exact (hd _ h).1 rfl
    · intro hcon
      rcases hmem _ hcon with h | h
      · exact absurd h (by decide)
      · exact (hd _ h).2.1 rfl
    · intro hcon
      rcases hmem _ hcon with h | h
      · exact absurd h (by decide)
      · exact (hd _ h).2.2 rfl
    · rw [pywords_intercalate _ (fun u hu => ⟨(htake u hu).1, fun c hc => ((htake u hu).2 c hc).1⟩)]
      calc ((w :: vs).take 5).length ≤ 5 := by
            rw [List.length_take]; exact min_le_left _ _

/-- C5 — For every raw model output string, the cleaned label contains no
newline, no double quote and no single quote, and has at most 5
whitespace-delimited words.  (The cleaning transform itself is `cleanLabel`,
embedded step for step from source lines 138–143: replace newlines with
spaces, remove double and single quotes, collapse whitespace runs to single
spaces, keep the first 5 whitespace-delimited words.) -/
theorem claim_C5_clean_label_shape (s : String) :
    '\n' ∉ (cleanLabel s).toList ∧ dquote ∉ (cleanLabel s).toList ∧
      squote ∉ (cleanLabel s).toList ∧ (pySplit (cleanLabel s)).length ≤ 5 := by
  have h := cleanChars_props s.toList
  have htl : (cleanLabel s).toList = cleanChars s.toList := rfl
  rw [htl]
  refine ⟨h.1, h.2.1, h.2.2.1, ?_⟩
  have : pySplit (cleanLabel s) = (pywords (cleanChars s.toList)).map String.mk := rfl
  rw [this, List.length_map]
  exact h.2.2.2

/-! ### The duplicate filter -/

/-- C8 — The Duplicate Filter returns true iff some whitespace-delimited
token of the item occurs strictly more than `threshold` times (the Python
`count > threshold`); an empty or null (`None`) item always returns false.
The default threshold of the source is 10 (`too_many_duplicates` carries it
as a default argument). -/
lemma too_many_duplicates_empty (threshold : Nat) :
    too_many_duplicates (some "") threshold = false := rfl

theorem claim_C8_duplicate_filter (line : Option String) (threshold : Nat) :
    (too_many_duplicates line threshold = true ↔
      ∃ w ∈ pySplit (line.getD ""), (pySplit (line.getD "")).count w > threshold) ∧
    too_many_duplicates none threshold = false ∧
    too_many_duplicates (some "") threshold = false := by
  refine ⟨?_, rfl, too_many_duplicates_empty threshold⟩
  cases line with
  | none =>
    simp only [too_many_duplicates, Option.getD_none]
    constructor
    · intro h; cases h
    · rintro ⟨w, hw, -⟩
      have : pySplit "" = [] := rfl
      rw [this] at hw
      cases hw
  | some s =>
    simp only [Option.getD_some]
    by_cases hs : s = ""
    · subst hs
      constructor
      · intro h; rw [too_many_duplicates_empty threshold] at h
        cases h
      · rintro ⟨w, hw, -⟩
        have : pySplit "" = [] := rfl
        rw [this] at hw
        cases hw
    · rw [too_many_duplicates]
      rw [if_neg (by simpa using hs)]
      rw [List.any_eq_true]
      constructor
      · rintro ⟨w, hw, hcount⟩
        exact ⟨w, (mem_dedupFirst _ _).mp hw, by simpa using hcount⟩
      · rintro ⟨w, hw, hcount⟩
        exact ⟨w, (mem_dedupFirst _ _).mpr hw, by simpa using hcount⟩

/-! ### The digest rendering (claim C7) -/

/-- The concrete input refuting the consecutive-numbering part of C7: the
middle item is flagged by the Duplicate Filter (the token x occurs 11 > 10
times), and the item after it keeps its pre-filter number 3. -/
def c7input : List String := ["ok", "x x x x x x x x x x x y", "end"]

/-- C7 counterexample — the digest numbering is not the consecutive 1..k
numbering of the surviving items: dropped items leave gaps, because the
source enumerates the deduplicated items before filtering. -/
theorem claim_C7_counterexample :
    renderDigest c7input ≠ renderDigestSpec c7input ∧
    renderDigest c7input = "1. ok\n3. end" ∧
    renderDigestSpec c7input = "1. ok\n2. end" := by decide

/-- C7 amended — the pre-truncation digest is built by removing
exact-duplicate text values (keeping the first occurrence, in first-seen
order: `dedupFirst` is duplicate-free and a sublist of the input with the
same members), then dropping items flagged by the Duplicate Filter, where
each surviving item is numbered by its 1-based position among the
deduplicated items (so numbers may skip); when no deduplicated item is
flagged the numbering is exactly the consecutive 1..k numbering of the
claim. -/
theorem claim_C7_amended (items : List String)
    (hclean : ∀ t ∈ dedupFirst items, too_many_duplicates (some t) = false) :
    (dedupFirst items).Nodup ∧ List.Sublist (dedupFirst items) items ∧
      (∀ x, x ∈ dedupFirst items ↔ x ∈ items) ∧
      renderDigest items = renderDigestSpec items := by
  refine ⟨dedupFirst_nodup items, dedupFirst_sublist items, fun x => mem_dedupFirst items x, ?_⟩
  rw [renderDigest, renderDigestSpec]
  have h1 : ((dedupFirst items).enum.filter fun p => !(too_many_duplicates (some p.2))) =
      (dedupFirst items).enum := by
    refine List.filter_eq_self.mpr ?_
    intro p hp
    have hsnd : p.2 ∈ dedupFirst items := by
      have := List.mem_map_of_mem Prod.snd hp
      rwa [List.enum_map_snd] at this
    rw [hclean p.2 hsnd]
    rfl
  have h2 : ((dedupFirst items).filter fun t => !(too_many_duplicates (some t))) =
      dedupFirst items := by
    refine List.filter_eq_self.mpr ?_
    intro t ht
    rw [hclean t ht]
    rfl
  rw [h1, h2]

/-- C7 witness — the scenario of the spec: no item is flagged, and the
digest is the consecutive numbered list. -/
theorem claim_C7_witness :
    (dedupFirst ["a b c", "a b c", "d e"]).Nodup ∧
      List.Sublist (dedupFirst ["a b c", "a b c", "d e"]) ["a b c", "a b c", "d e"] ∧
      (∀ x, x ∈ dedupFirst ["a b c", "a b c", "d e"] ↔ x ∈ ["a b c", "a b c", "d e"]) ∧
      renderDigest ["a b c", "a b c", "d e"] = renderDigestSpec ["a b c", "a b c", "d e"] :=
  claim_C7_amended ["a b c", "a b c", "d e"] (by decide)

/-! ### The token budget (claim C6) -/

/-- An encoder that encodes every string to the empty token sequence — a
degenerate but contract-conforming model encoder, used to exhibit a negative
budget. -/
def encZero : String → List Nat := fun _ => []

/-- C6 counterexample — when the computed budget is negative (the system
prompt plus margin exceeds the model capacity), the Python slice
`encoded[:max_tokens]` does not truncate to the budget, and the token length
of the digest exceeds the budget: with `model_max_tokens = 0` the budget is
`-10`, while the truncated token sequence has nonnegative length `0`. -/
theorem claim_C6_counterexample :
    ¬ (((truncateTokens (encZero (renderDigest ["hello"]))
          (computeMaxTokens 0 encZero "")).length : Int) ≤
        computeMaxTokens 0 encZero "") := by decide

/-- C6 amended — the budget is `model_max_tokens − tokens(system prompt) −
10` (`computeMaxTokens`), and whenever that budget is nonnegative, the token
length of every truncated cluster digest is at most the budget. -/
theorem claim_C6_amended (modelMaxTokens : Int) (encode : String → List Nat)
    (context : String) (items : List String)
    (h : 0 ≤ computeMaxTokens modelMaxTokens encode context) :
    ((truncateTokens (encode (renderDigest items))
        (computeMaxTokens modelMaxTokens encode context)).length : Int) ≤
      computeMaxTokens modelMaxTokens encode context := by
  set b := computeMaxTokens modelMaxTokens encode context with hb
  set l := encode (renderDigest items) with hl
  rw [truncateTokens]
  by_cases hgt : (l.length : Int) > b
  · rw [if_pos hgt, pySliceTo, if_pos h, List.length_take]
    calc ((min b.toNat l.length : Nat) : Int) ≤ (b.toNat : Int) := by
          exact_mod_cast min_le_left _ _
      _ = b := Int.toNat_of_nonneg h
  · rw [if_neg hgt]
    exact le_of_not_lt hgt

/-- C6 witness — a concrete run with a nonnegative budget. -/
theorem claim_C6_witness :
    (0 ≤ computeMaxTokens 100 encZero "") ∧
      ((truncateTokens (encZero (renderDigest ["hi"]))
          (computeMaxTokens 100 encZero "")).length : Int) ≤
        computeMaxTokens 100 encZero "" :=
  ⟨by decide, claim_C6_amended 100 encZero "" ["hi"] (by decide)⟩

/-! ### Run-id resolution (claim C10) -/

/-- C10 — calling the labeler through the Python API without a `rerun`
argument uses the default `""`, which is not `None`: run-id resolution takes
the rerun branch and attempts to load the run table file named `".parquet"`;
a fresh sequential run id is assigned exactly when `rerun` is `None` (as the
command line supplies when `--rerun` is absent). -/
theorem claim_C10_default_rerun (clusterId : String) (nums : List Nat) :
    labelerDefaultRerun = some "" ∧ labelerDefaultRerun ≠ none ∧
    resolveRunId clusterId nums labelerDefaultRerun = .rerunLoad "" ".parquet" ∧
    (∀ rerun : Option String,
      (∃ lid, resolveRunId clusterId nums rerun = .fresh lid) ↔ rerun = none) := by
  refine ⟨rfl, by simp [labelerDefaultRerun], rfl, ?_⟩
  intro rerun
  cases rerun with
  | none =>
    simp only [iff_true]
    exact ⟨_, rfl⟩
  | some lid =>
    simp only [resolveRunId]
    constructor
    · rintro ⟨l, hl⟩; cases hl
    · intro h; cases h

/-! ### The labeling engine -/

/-- The chat call succeeds (returns raw text rather than raising) on the
given messages. -/
def chatOkOn (chat : List ChatMessage → Except String String)
    (msgs : List ChatMessage) : Prop :=
  ∃ raw, chat msgs = Except.ok raw

/-- The chat call succeeds on every message list. -/
def chatTotal (chat : List ChatMessage → Except String String) : Prop :=
  ∀ msgs, chatOkOn chat msgs

/-- Every labeled row of the table carries the verbatim raw output and its
cleaned form (the invariant a checkpoint table must satisfy to be a safe
resume source). -/
def goodTable (t : List Entry) : Prop :=
  ∀ e ∈ t, e.labeled = true →
    ∃ raw, e.label_raw = some raw ∧ e.label = some (cleanLabel raw)

/-- Rows `0 .. m-1` of the table all have `labeled = true`. -/
def labeledBelow (t : List Entry) (m : Nat) : Prop :=
  ∀ j, j < m → (t.getD j default).labeled = true

/-- Every checkpoint snapshot in the log is a good table of the full length
whose rows up to and including the cluster that triggered the write are all
labeled. -/
def logGood (n : Nat) (log : List (Nat × List Entry)) : Prop :=
  ∀ p ∈ log, goodTable p.2 ∧ labeledBelow p.2 (p.1 + 1) ∧ p.2.length = n

/-- Whether the loop invokes the model for index `j` given the
`unlabeled_row` value `r` and the table at the start of the run: the skip
branch fires only when `r > 0` and the row is already labeled. -/
def calledGate (r : Nat) (t : List Entry) (j : Nat) : Bool :=
  !(decide (0 < r) && (t.getD j default).labeled)

lemma getD_set_ne (l : List Entry) (i j : Nat) (e : Entry) (h : i ≠ j) :
    (l.set i e).getD j default = l.getD j default := by
  rw [List.getD_eq_getElem?_getD, List.getD_eq_getElem?_getD, List.getElem?_set_ne h]

lemma getD_set_self (l : List Entry) (i : Nat) (e : Entry) (h : i < l.length) :
    (l.set i e).getD i default = e := by
  rw [List.getD_eq_getElem?_getD, List.getElem?_set_self h]
  rfl

/-- Master invariant of the labeling loop: over the index window
`i, i+1, …, i+k-1`, with every needed chat call succeeding, the loop
completes, labels everything below `i+k`, keeps the checkpoint equal to the
in-memory table, writes one checkpoint per model call, leaves rows at and
above `i+k` untouched, and calls the model exactly on the indices the skip
gate lets through (evaluated against the table at window entry). -/
lemma runLoop_window (chat : List ChatMessage → Except String String)
    (context : String) (extracts : List String) (r n : Nat) :
    ∀ (k i : Nat) (s : EngineState),
      (∀ j, i ≤ j → j < i + k →
        chatOkOn chat [systemPromptMsg context, userMsg (extracts.getD j "")]) →
      s.table.length = n → i + k ≤ n →
      labeledBelow s.table i → goodTable s.table →
      s.persisted = s.table → logGood n s.persistLog →
      ∃ s', runLoop chat context extracts (some r) (List.range' i k) s = .completed s' ∧
        s'.table.length = n ∧
        labeledBelow s'.table (i + k) ∧
        goodTable s'.table ∧
        s'.persisted = s'.table ∧
        logGood n s'.persistLog ∧
        (∀ j, i + k ≤ j → s'.table.getD j default = s.table.getD j default) ∧
        s'.calls = s.calls ++ (List.range' i k).filter (calledGate r s.table) ∧
        s'.persistLog.length =
          s.persistLog.length + ((List.range' i k).filter (calledGate r s.table)).length := by
  intro k
  induction k with
  | zero =>
    intro i s _ hlen _ hlb hgood hpers hlog
    refine ⟨s, rfl, hlen, by simpa using hlb, hgood, hpers, hlog, fun j _ => rfl, ?_, ?_⟩
    · simp [List.range']
    · simp [List.range']
  | succ k ih =>
    intro i s hchat hlen hik hlb hgood hpers hlog
    rw [List.range'_succ]
    rw [runLoop]
    have hin : i < s.table.length := by omega
    by_cases hgate : (decide (0 < r) && (s.table.getD i default).labeled) = true
    · -- skip branch: the row is already labeled
      rw [if_pos hgate]
      have hlab : (s.table.getD i default).labeled = true :=
        (Bool.and_eq_true _ _ |>.mp hgate).2
      have hlb' : labeledBelow s.table (i + 1) := by
        intro j hj
        rcases Nat.lt_succ_iff_lt_or_eq.mp hj with h | rfl
        · exact hlb j h
        · exact hlab
      obtain ⟨s', hrun, hlen', hlb2a, hgood', hpers', hlog', huntouched, hcalls, hloglen⟩ :=
        ih (i + 1) s (fun j h1 h2 => hchat j (by omega) (by omega))
          hlen (by omega) hlb' hgood hpers hlog
      refine ⟨s', hrun, hlen', ?_, hgood', hpers', hlog', ?_, ?_, ?_⟩
      · intro j hj
        exact hlb2a j (by omega)
      · intro j hj
        exact huntouched j (by omega)
      · rw [hcalls, List.filter_cons]
        have : calledGate r s.table i = false := by
          rw [calledGate, hgate]
          rfl
        rw [this]
        simp
      · rw [hloglen, List.filter_cons]
        have : calledGate r s.table i = false := by
          rw [calledGate, hgate]
          rfl
        rw [this]
        simp
    · -- call branch: the model is invoked for row i
      rw [if_neg hgate]
      obtain ⟨raw, hraw⟩ := hchat i (le_refl i) (by omega)
      rw [hraw]
      set t := s.table.set i (labelEntry raw (s.table.getD i default)) with ht
      set s2 : EngineState :=
        { table := t, persisted := t,
          persistLog := s.persistLog ++ [(i, t)],
          calls := s.calls ++ [i] } with hs2
      have hlen2 : s2.table.length = n := by
        rw [hs2]
        simpa [ht] using hlen
      have hlb2 : labeledBelow s2.table (i + 1) := by
        intro j hj
        rcases Nat.lt_succ_iff_lt_or_eq.mp hj with h | rfl
        · rw [hs2]
          simp only []
          rw [ht, getD_set_ne _ _ _ _ (by omega)]
          exact hlb j h
        · rw [hs2]
          simp only []
          rw [ht, getD_set_self _ _ _ hin]
          rfl
      have hgood2 : goodTable s2.table := by
        intro e he hlab
        rw [hs2] at he
        simp only [] at he
        rw [ht] at he
        rcases List.mem_or_eq_of_mem_set he with h | rfl
        · exact hgood e h hlab
        · exact ⟨raw, rfl, rfl⟩
      have hlog2 : logGood n s2.persistLog := by
        intro p hp
        rw [hs2] at hp
        simp only [] at hp
        rcases List.mem_append.mp hp with h | h
        · exact hlog p h
        · rcases List.mem_singleton.mp h with rfl
          exact ⟨hgood2, hlb2, hlen2⟩
      obtain ⟨s', hrun, hlen', hlb2a, hgood', hpers', hlog', huntouched, hcalls, hloglen⟩ :=
        ih (i + 1) s2 (fun j h1 h2 => hchat j (by omega) (by omega))
          hlen2 (by omega) hlb2 hgood2 rfl hlog2
      have hfiltercongr :
          (List.range' (i + 1) k).filter (calledGate r s2.table) =
            (List.range' (i + 1) k).filter (calledGate r s.table) := by
        refine List.filter_congr ?_
        intro j hj
        have hjlb : i + 1 ≤ j := (List.mem_range'_1.mp hj).1
        rw [calledGate, calledGate, hs2]
        simp only []
        rw [ht, getD_set_ne _ _ _ _ (by omega)]
      refine ⟨s', hrun, hlen', ?_, hgood', hpers', hlog', ?_, ?_, ?_⟩
      · intro j hj
        exact hlb2a j (by omega)
      · intro j hj
        rw [huntouched j (by omega), hs2]
        simp only []
        rw [ht, getD_set_ne _ _ _ _ (by omega)]
      · rw [hcalls, hfiltercongr, List.filter_cons]
        have : calledGate r s.table i = true := by
          rw [calledGate, Bool.eq_false_iff.mpr hgate]
          rfl
        rw [this, hs2]
        simp
      · rw [hloglen, hfiltercongr, List.filter_cons]
        have : calledGate r s.table i = true := by
          rw [calledGate, Bool.eq_false_iff.mpr hgate]
          rfl
        rw [this, hs2]
        simp [List.length_append]
        omega

/-- Running the loop over a concatenation: if the first window completes,
the loop continues over the second from the reached state. -/
lemma runLoop_append (chat : List ChatMessage → Except String String)
    (context : String) (extracts : List String) (ur : Option Nat) :
    ∀ (l1 l2 : List Nat) (s s1 : EngineState),
      runLoop chat context extracts ur l1 s = .completed s1 →
      runLoop chat context extracts ur (l1 ++ l2) s =
        runLoop chat context extracts ur l2 s1 := by
  intro l1
  induction l1 with
  | nil =>
    intro l2 s s1 h
    rw [runLoop] at h
    cases h
    rfl
  | cons i rest ih =>
    intro l2 s s1 h
    rw [List.cons_append]
    cases ur with
    | none =>
      rw [runLoop] at h
      cases h
    | some r =>
      rw [runLoop] at h
      rw [runLoop]
      by_cases hgate : (decide (0 < r) && (s.table.getD i default).labeled) = true
      · rw [if_pos hgate] at h ⊢
        exact ih l2 s s1 h
      · rw [if_neg hgate] at h ⊢
        cases hc : chat [systemPromptMsg context, userMsg (extracts.getD i "")] with
        | error e =>
          rw [hc] at h
          exact RunOutcome.noConfusion h
        | ok raw =>
          rw [hc] at h
          exact ih l2 _ s1 h

lemma extractsOf_length (m : ModelApi) (context : String) (records : List String)
    (table : List Entry) : (extractsOf m context records table).length = table.length :=
  List.length_map _ _

/-- A constant-output chat model used for concrete witnesses. -/
def chatConst (out : String) : List ChatMessage → Except String String :=
  fun _ => .ok out

/-- A degenerate but contract-conforming model whose chat always answers
`out`, used for concrete witnesses and counterexamples. -/
def mConst (out : String) : ModelApi :=
  ⟨100, fun _ => [], fun _ => "", chatConst out⟩

/-- C1 counterexample — a partially completed rerun table whose first
unlabeled row is 0: the skip gate `unlabeled_row > 0` is off, so cluster 1
is sent to the model even though its `labeled` flag is already true,
contradicting the claim that the flag alone controls skipping regardless of
the computed first-unlabeled-row index. -/
theorem claim_C1_counterexample :
    firstUnlabeledRow [⟨[], none, none, false⟩, ⟨[], some "old", some "old", true⟩] = some 0 ∧
    (([⟨[], none, none, false⟩, ⟨[], some "old", some "old", true⟩] :
        List Entry).getD 1 default).labeled = true ∧
    (labelerRerun (mConst "L") "" []
        [⟨[], none, none, false⟩, ⟨[], some "old", some "old", true⟩]).callsOf = [0, 1] := by
  decide

/-- C1 amended — in a resumed run, iteration is in ascending cluster index
order; when the computed first-unlabeled-row index is positive, the model is
invoked exactly for the clusters whose `labeled` flag is false; when that
index is 0, the skip gate is disabled and the model is invoked for every
cluster regardless of the flag.  One checkpoint write occurs per model
call. -/
theorem claim_C1_amended (m : ModelApi) (context : String) (records : List String)
    (table : List Entry) (k : Nat)
    (hchat : chatTotal m.chat) (hgood : goodTable table)
    (hfirst : firstUnlabeledRow table = some k) :
    ∃ s', labelerRerun m context records table = .completed s' ∧
      (0 < k → s'.calls =
        (List.range table.length).filter fun j => !(table.getD j default).labeled) ∧
      (k = 0 → s'.calls = List.range table.length) ∧
      s'.persistLog.length = s'.calls.length := by
  rw [labelerRerun, labelerCore, hfirst]
  rw [extractsOf_length]
  rw [List.range_eq_range']
  obtain ⟨s', hrun, hlen', hlb', hgood', hpers', hlog', huntouched, hcalls, hloglen⟩ :=
    runLoop_window m.chat context (extractsOf m context records table) k table.length
      table.length 0 ⟨table, table, [], []⟩
      (fun j _ _ => hchat _) rfl (by omega) (fun j hj => absurd hj (by omega)) hgood rfl
      (fun p hp => absurd hp (by simp))
  refine ⟨s', hrun, ?_, ?_, ?_⟩
  · intro hk
    rw [hcalls]
    rw [show EngineState.calls ⟨table, table, [], []⟩ = ([] : List Nat) from rfl]
    rw [List.nil_append]
    rw [← List.range_eq_range']
    refine List.filter_congr ?_
    intro j _
    rw [calledGate]
    simp only []
    rw [decide_eq_true hk]
    rw [Bool.true_and]
  · intro hk
    subst hk
    rw [hcalls]
    rw [show EngineState.calls ⟨table, table, [], []⟩ = ([] : List Nat) from rfl]
    rw [List.nil_append]
    rw [← List.range_eq_range']
    have : ∀ j ∈ List.range table.length, calledGate 0 table j = true := by
      intro j _
      rw [calledGate]
      rfl
    rw [List.filter_eq_self.mpr this]
  · rw [hcalls, hloglen]
    rw [show EngineState.calls ⟨table, table, [], []⟩ = ([] : List Nat) from rfl]
    rw [show EngineState.persistLog ⟨table, table, [], []⟩ =
        ([] : List (Nat × List Entry)) from rfl]
    simp

/-- The concrete rerun table for the C1 witness: cluster 0 already labeled
(consistently with the cleaning transform), cluster 1 not yet labeled, so
the first unlabeled row is 1 > 0. -/
def tableW1 : List Entry :=
  [⟨[], some "old", some "old", true⟩, ⟨[], none, none, false⟩]

/-- C1 witness — the amended theorem applied to a concrete partially
completed rerun table with a positive first-unlabeled-row index. -/
theorem claim_C1_witness :
    ∃ s', labelerRerun (mConst "New") "" [] tableW1 = .completed s' ∧
      (0 < 1 → s'.calls =
        (List.range tableW1.length).filter fun j => !(tableW1.getD j default).labeled) ∧
      (1 = 0 → s'.calls = List.range tableW1.length) ∧
      s'.persistLog.length = s'.calls.length :=
  claim_C1_amended (mConst "New") "" [] tableW1 1
    (fun _ => ⟨"New", rfl⟩)
    (by
      intro e he h
      rcases List.mem_cons.mp he with rfl | he
      · exact ⟨"old", rfl, by decide⟩
      · rcases List.mem_singleton.mp he with rfl
        exact absurd h (by decide))
    (by decide)

/-- C2 (code bug) — resuming a run table in which every row already has
`labeled = true` does not terminate normally: `first_valid_index()` of the
empty unlabeled selection is Python `None`, and the loop body immediately
evaluates `None > 0`, raising an uncaught `TypeError` at the first cluster;
no model call is made and the table is left unchanged, but the process
crashes instead of completing. -/
theorem claim_C2_code_bug (m : ModelApi) (context : String) (records : List String)
    (table : List Entry) (hne : table ≠ [])
    (hall : ∀ e ∈ table, e.labeled = true) :
    labelerRerun m context records table = .typeErrorCrash ⟨table, table, [], []⟩ ∧
    (RunOutcome.typeErrorCrash ⟨table, table, [], []⟩).callsOf = [] ∧
    (RunOutcome.typeErrorCrash ⟨table, table, [], []⟩).tableOf = table := by
  have hfirst : firstUnlabeledRow table = none := by
    rw [firstUnlabeledRow, List.findIdx?_eq_none_iff]
    intro e he
    rw [hall e he]
    rfl
  refine ⟨?_, rfl, rfl⟩
  rw [labelerRerun, labelerCore, hfirst]
  rw [extractsOf_length]
  obtain ⟨n, hn⟩ : ∃ n, table.length = n + 1 := by
    cases htab : table with
    | nil => exact absurd htab hne
    | cons e es => exact ⟨es.length, rfl⟩
  rw [hn, List.range_succ_eq_map]
  rw [runLoop]

/-- C2 witness — the crash evaluated on a concrete fully labeled one-row
rerun table. -/
theorem claim_C2_witness :
    labelerRerun (mConst "x") "" [] [⟨[], some "l", some "r", true⟩] =
      .typeErrorCrash ⟨[⟨[], some "l", some "r", true⟩],
        [⟨[], some "l", some "r", true⟩], [], []⟩ :=
  (claim_C2_code_bug (mConst "x") "" [] [⟨[], some "l", some "r", true⟩]
    (by decide)
    (by
      intro e he
      rcases List.mem_singleton.mp he with rfl
      rfl)).1

/-- C3 — in any run whose chat calls all succeed, the loop completes; the
on-disk checkpoint always equals the in-memory table, exactly one checkpoint
write happens per model call (per-cluster, never batched), every checkpoint
snapshot is a full-length good table whose rows up to the cluster that
triggered the write are all labeled (safe to reload as a resume source), and
at the end every row is labeled. -/
theorem claim_C3_checkpointing (m : ModelApi) (context : String)
    (records : List String) (table : List Entry) (r : Nat)
    (hchat : chatTotal m.chat) (hgood : goodTable table) :
    ∃ s', labelerCore m context records table (some r) = .completed s' ∧
      s'.persisted = s'.table ∧
      s'.persistLog.length = s'.calls.length ∧
      logGood table.length s'.persistLog ∧
      labeledBelow s'.table table.length ∧
      goodTable s'.table := by
  rw [labelerCore, extractsOf_length, List.range_eq_range']
  obtain ⟨s', hrun, hlen', hlb', hgood', hpers', hlog', _, hcalls, hloglen⟩ :=
    runLoop_window m.chat context (extractsOf m context records table) r table.length
      table.length 0 ⟨table, table, [], []⟩ (fun j _ _ => hchat _) rfl (by omega)
      (fun j hj => absurd hj (by omega)) hgood rfl (fun p hp => absurd hp (by simp))
  refine ⟨s', hrun, hpers', ?_, hlog', by simpa using hlb', hgood'⟩
  rw [hcalls, hloglen]
  rw [show EngineState.calls ⟨table, table, [], []⟩ = ([] : List Nat) from rfl]
  rw [show EngineState.persistLog ⟨table, table, [], []⟩ =
      ([] : List (Nat × List Entry)) from rfl]
  simp

/-- C3 witness — the checkpointing theorem applied to a concrete one-row
fresh run. -/
theorem claim_C3_witness :
    ∃ s', labelerCore (mConst "Hi") "" [] [⟨[], none, none, false⟩] (some 0) =
        .completed s' ∧
      s'.persisted = s'.table ∧
      s'.persistLog.length = s'.calls.length ∧
      logGood 1 s'.persistLog ∧
      labeledBelow s'.table 1 ∧
      goodTable s'.table :=
  claim_C3_checkpointing (mConst "Hi") "" [] [⟨[], none, none, false⟩] 0
    (fun _ => ⟨"Hi", rfl⟩)
    (by
      intro e he h
      rcases List.mem_singleton.mp he with rfl
      exact absurd h (by decide))

/-- C4 — if the chat call raises on cluster `f` (and succeeds before it),
the run stops with `exit(1)`: the failing row keeps its entry and stays
unlabeled, the checkpoint equals the in-memory table with every row before
`f` labeled and intact (no rollback), and the model was attempted exactly
once on `f` (its index appears once, at the end of the call trace — no
retry). -/
theorem claim_C4_fail_fast (m : ModelApi) (context : String)
    (records : List String) (table : List Entry) (r f : Nat)
    (hf : f < table.length)
    (hok : ∀ j, j < f → chatOkOn m.chat (msgsFor m context records table j))
    (hbad : ∃ err, m.chat (msgsFor m context records table f) = .error err)
    (hunlab : (table.getD f default).labeled = false)
    (hgood : goodTable table) :
    ∃ s', labelerCore m context records table (some r) = .exited s' ∧
      s'.table.getD f default = table.getD f default ∧
      (s'.table.getD f default).labeled = false ∧
      s'.persisted = s'.table ∧
      labeledBelow s'.persisted f ∧
      goodTable s'.persisted ∧
      s'.calls = ((List.range' 0 f).filter (calledGate r table)) ++ [f] ∧
      s'.persistLog.length = ((List.range' 0 f).filter (calledGate r table)).length := by
  rw [labelerCore, extractsOf_length, List.range_eq_range']
  have hsplit : List.range' 0 table.length =
      List.range' 0 f ++ List.range' f (table.length - f) := by
    have h := List.range'_append_1 0 f (table.length - f)
    rw [Nat.zero_add] at h
    rw [h]
    congr 1
    omega
  obtain ⟨s1, hrun, hlen1, hlb1, hgood1, hpers1, hlog1, huntouched, hcalls1, hloglen1⟩ :=
    runLoop_window m.chat context (extractsOf m context records table) r table.length
      f 0 ⟨table, table, [], []⟩ (fun j _ hj => hok j (by omega)) rfl (by omega)
      (fun j hj => absurd hj (by omega)) hgood rfl (fun p hp => absurd hp (by simp))
  rw [hsplit, runLoop_append m.chat context (extractsOf m context records table)
      (some r) (List.range' 0 f) (List.range' f (table.length - f))
      ⟨table, table, [], []⟩ s1 hrun]
  have hnf : table.length - f = (table.length - f - 1) + 1 := by omega
  rw [hnf, List.range'_succ, runLoop]
  have htf : s1.table.getD f default = table.getD f default := by
    have := huntouched f (by omega)
    rw [this]
  have hgatef : (decide (0 < r) && (s1.table.getD f default).labeled) = false := by
    rw [htf, hunlab, Bool.and_false]
  rw [if_neg (by rw [hgatef]; exact Bool.false_ne_true)]
  obtain ⟨err, herr⟩ := hbad
  have herr' : m.chat [systemPromptMsg context,
      userMsg ((extractsOf m context records table).getD f "")] = .error err := herr
  rw [herr']
  refine ⟨_, rfl, ?_, ?_, ?_, ?_, ?_, ?_, ?_⟩
  · exact htf
  · rw [htf, hunlab]
  · exact hpers1
  · intro j hj
    rw [hpers1]
    have := hlb1 j (by omega)
    exact this
  · rw [hpers1]
    exact hgood1
  · rw [hcalls1]
    rw [show EngineState.calls ⟨table, table, [], []⟩ = ([] : List Nat) from rfl]
    rw [List.nil_append]
  · rw [hloglen1]
    rw [show EngineState.persistLog ⟨table, table, [], []⟩ =
        ([] : List (Nat × List Entry)) from rfl]
    simp

/-- The encoder and decoder used by the C4 witness model: code points. -/
def encChars : String → List Nat := fun s => s.toList.map Char.toNat

/-- Inverse of `encChars` on code points. -/
def decChars : List Nat → String := fun l => String.mk (l.map Char.ofNat)

/-- A model whose chat raises exactly on the prompt for the digest `1. b`
and succeeds otherwise. -/
def mFail : ModelApi :=
  ⟨10000, encChars, decChars,
    fun msgs => if msgs = [systemPromptMsg "", userMsg "1. b"] then .error "boom"
      else .ok "OK"⟩

/-- The two-row fresh table for the C4 witness. -/
def tableF : List Entry := [⟨[0], none, none, false⟩, ⟨[1], none, none, false⟩]

/-- C4 witness — the fail-fast theorem applied to a concrete run whose chat
call raises on cluster 1 of 2. -/
theorem claim_C4_witness :
    ∃ s', labelerCore mFail "" ["a", "b"] tableF (some 0) = .exited s' ∧
      s'.table.getD 1 default = tableF.getD 1 default ∧
      (s'.table.getD 1 default).labeled = false ∧
      s'.persisted = s'.table ∧
      labeledBelow s'.persisted 1 ∧
      goodTable s'.persisted ∧
      s'.calls = ((List.range' 0 1).filter (calledGate 0 tableF)) ++ [1] ∧
      s'.persistLog.length = ((List.range' 0 1).filter (calledGate 0 tableF)).length :=
  claim_C4_fail_fast mFail "" ["a", "b"] tableF 0 1 (by decide)
    (by
      intro j hj
      have hj0 : j = 0 := by omega
      subst hj0
      exact ⟨"OK", by set_option maxRecDepth 10000 in rfl⟩)
    ⟨"boom", by set_option maxRecDepth 10000 in rfl⟩
    (by decide)
    (by
      intro e he h
      rcases List.mem_cons.mp he with rfl | he
      · exact absurd h (by decide)
      · rcases List.mem_singleton.mp he with rfl
        exact absurd h (by decide))

/-- C9 counterexample — an accepted raw model output can be the empty
string: the row is then marked `labeled = true` while both `label` and
`label_raw` are the empty string, refuting the claimed non-emptiness. -/
theorem claim_C9_counterexample :
    (((labelerCore (mConst "") "" [] [⟨[], none, none, false⟩] (some 0)).tableOf.getD 0
        default).labeled = true) ∧
    (((labelerCore (mConst "") "" [] [⟨[], none, none, false⟩] (some 0)).tableOf.getD 0
        default).label = some "") ∧
    (((labelerCore (mConst "") "" [] [⟨[], none, none, false⟩] (some 0)).tableOf.getD 0
        default).label_raw = some "") := by decide

/-- C9 amended — whenever the loaded table satisfies it, the run preserves
the invariant that every row with `labeled = true` has both fields present,
with `label` the cleaning of the verbatim `label_raw`; the fields need not
be non-empty (an empty raw output yields empty `label_raw` and `label`).
The invariant holds for the final table, the checkpoint, and every
checkpoint snapshot written during the run. -/
theorem claim_C9_label_invariant (m : ModelApi) (context : String)
    (records : List String) (table : List Entry) (r : Nat)
    (hchat : chatTotal m.chat) (hgood : goodTable table) :
    ∃ s', labelerCore m context records table (some r) = .completed s' ∧
      goodTable s'.table ∧ goodTable s'.persisted ∧
      ∀ p ∈ s'.persistLog, goodTable p.2 := by
  rw [labelerCore, extractsOf_length, List.range_eq_range']
  obtain ⟨s', hrun, hlen', hlb', hgood', hpers', hlog', _, _, _⟩ :=
    runLoop_window m.chat context (extractsOf m context records table) r table.length
      table.length 0 ⟨table, table, [], []⟩ (fun j _ _ => hchat _) rfl (by omega)
      (fun j hj => absurd hj (by omega)) hgood rfl (fun p hp => absurd hp (by simp))
  refine ⟨s', hrun, hgood', ?_, fun p hp => (hlog' p hp).1⟩
  rw [hpers']
  exact hgood'

/-- C9 witness — the invariant theorem applied to a concrete one-row run. -/
theorem claim_C9_witness :
    ∃ s', labelerCore (mConst "Nice") "" [] [⟨[], none, none, false⟩] (some 0) =
        .completed s' ∧
      goodTable s'.table ∧ goodTable s'.persisted ∧
      ∀ p ∈ s'.persistLog, goodTable p.2 :=
  claim_C9_label_invariant (mConst "Nice") "" [] [⟨[], none, none, false⟩] 0
    (fun _ => ⟨"Nice", rfl⟩)
    (by
      intro e he h
      rcases List.mem_singleton.mp he with rfl
      exact absurd h (by decide))
